import Mathlib

/- Verification development for the `pvp_arena` duel plugin
   (`src/endstone_pvp_arena/src/endstone_pvp_arena/pvp_arena.py`).

   The plugin keeps five process-global dictionaries:
     `_pending    : dict[str, list[str]]`
     `_duels      : dict[UUID, UUID]`
     `_inventories: dict[UUID, list]`
     `_locations  : dict[UUID, Location]`
     `_bars       : dict[UUID, BossBar]`
   We model UUIDs, item stacks, locations and boss-bar handles as naturals,
   and Python dictionaries as association lists whose operations mirror
   `d[k] = v`, `d.get(k)`, `d.pop(k, None)` and `len(d)`.  The scoreboard
   collaborator (win counts and ELO ratings, integers) is modelled as part
   of the state; the world collaborators (teleport, health, titles,
   broadcast, the keepinventory gamerule dispatch) act on `Player` values
   or on the single `keepInv` flag. -/

namespace Arena

/-- Python `d.get(k)`: first value stored under key `k`, if any. -/
def lookupA {κ β : Type} [DecidableEq κ] (k : κ) : List (κ × β) → Option β
  | [] => none
  | kv :: rest => if kv.1 = k then some kv.2 else lookupA k rest

/-- Python `d[k] = v`: replace the entry in place, or append a new one
(Python dicts preserve insertion order). -/
def insertA {κ β : Type} [DecidableEq κ] (k : κ) (v : β) : List (κ × β) → List (κ × β)
  | [] => [(k, v)]
  | kv :: rest => if kv.1 = k then (k, v) :: rest else kv :: insertA k v rest

/-- Python `d.pop(k, None)`, effect on the dictionary: drop the entry
stored under `k` when there is one. -/
def eraseA {κ β : Type} [DecidableEq κ] (k : κ) : List (κ × β) → List (κ × β)
  | [] => []
  | kv :: rest => if kv.1 = k then rest else kv :: eraseA k rest

/-- The keys of a dictionary, in storage order. -/
def keysA {κ β : Type} (m : List (κ × β)) : List κ := m.map Prod.fst

/-- Effect of `insertA` on the key list alone. -/
def insertKey {κ : Type} [DecidableEq κ] (k : κ) : List κ → List κ
  | [] => [k]
  | k' :: rest => if k' = k then k' :: rest else k' :: insertKey k rest

/-- Effect of `eraseA` on the key list alone. -/
def eraseKey {κ : Type} [DecidableEq κ] (k : κ) : List κ → List κ
  | [] => []
  | k' :: rest => if k' = k then rest else k' :: eraseKey k rest

/-- Python `list.remove(x)`: drop the first occurrence of `x`, or signal
`ValueError` (here: `none`) when `x` does not occur. -/
def removeFirst (x : String) : List String → Option (List String)
  | [] => none
  | y :: ys => if y = x then some ys else (removeFirst x ys).map (y :: ·)

/-- A connected player as the plugin sees it: stable unique id, display
name, inventory contents (one optional item stack per slot), location,
health.  World effects (teleport, heal, inventory writes) act on these
fields. -/
structure Player where
  uid : ℕ
  pname : String
  inv : List (Option ℕ)
  loc : ℕ
  health : ℕ
  maxHealth : ℕ
deriving DecidableEq, Repr

/-- The plugin's global state: the five dictionaries, the two scoreboard
objectives, the boss-bar handle counter and the keepinventory gamerule. -/
structure ArenaState where
  pending : List (String × List String)
  duels : List (ℕ × ℕ)
  inventories : List (ℕ × List (Option ℕ))
  locations : List (ℕ × ℕ)
  bars : List (ℕ × ℕ)
  nextBar : ℕ
  wins : List (ℕ × ℤ)
  elos : List (ℕ × ℤ)
  keepInv : Bool
deriving DecidableEq, Repr

/-- State at plugin start: every map empty, keepinventory off. -/
def initState : ArenaState :=
  { pending := [], duels := [], inventories := [], locations := [],
    bars := [], nextBar := 0, wins := [], elos := [], keepInv := false }

/-- Reading a `pvp_wins` score: unset scores read as 0. -/
def winsGet (m : List (ℕ × ℤ)) (k : ℕ) : ℤ := (lookupA k m).getD 0

/-- Reading an `elo_rating` score as `_update_elo` does: scores that are
not set are first initialised to 1000. -/
def eloGet (m : List (ℕ × ℤ)) (k : ℕ) : ℤ := (lookupA k m).getD 1000

/-- The per-player snapshot taken in `_start_duel`:
`self._inventories[p.unique_id] = list(p.inventory.contents)` and
`self._locations[p.unique_id] = p.location`. -/
def snapshotSave (p : Player) (s : ArenaState) : ArenaState :=
  { s with inventories := insertA p.uid p.inv s.inventories,
           locations := insertA p.uid p.loc s.locations }

/-- The slot-writing loop of `_restore_inventory`:
`for idx, item in enumerate(inv): if item: player.inventory.set_item(idx, item)`,
applied to the cleared inventory `cur`, starting at slot index `i`.
Empty (`none`) slots are skipped, not written. -/
def applySlots : ℕ → List (Option ℕ) → List (Option ℕ) → List (Option ℕ)
  | _, [], cur => cur
  | i, none :: rest, cur => applySlots (i + 1) rest cur
  | i, some x :: rest, cur => applySlots (i + 1) rest (cur.set i (some x))

/-- `_restore_inventory(player)`: if a snapshot is stored for the player's
id, clear the player's inventory and re-apply the saved slots; otherwise do
nothing.  (The snapshot entry itself is not removed here.) -/
def restoreInventoryP (s : ArenaState) (p : Player) : Player :=
  match lookupA p.uid s.inventories with
  | none => p
  | some inv => { p with inv := applySlots 0 inv (List.replicate p.inv.length none) }

/-- `_handle_player_join(player)`: if an inventory snapshot is recorded for
the joining player, restore the inventory, pop and apply the saved
location, pop the inventory entry, and heal the player. -/
def handlePlayerJoin (p : Player) (s : ArenaState) : Player × ArenaState :=
  if (lookupA p.uid s.inventories).isSome then
    let p1 := restoreInventoryP s p
    let loc? := lookupA p.uid s.locations
    let locs' := eraseA p.uid s.locations
    let p2 := match loc? with
              | some l => { p1 with loc := l }
              | none => p1
    let invs' := eraseA p.uid s.inventories
    let p3 := { p2 with health := p2.maxHealth }
    (p3, { s with locations := locs', inventories := invs' })
  else (p, s)

/-- `_update_bar(p1, p2)`: create a fresh boss bar for the pair when `p1`
has none recorded, registering the same handle under both ids; otherwise
only retitle the existing bar (no state change in the model). -/
def updateBar (p1 p2 : Player) (s : ArenaState) : ArenaState :=
  match lookupA p1.uid s.bars with
  | some _ => s
  | none =>
    let h := s.nextBar
    { s with bars := insertA p2.uid h (insertA p1.uid h s.bars), nextBar := h + 1 }

/-- `_start_duel(p1, p2)`: snapshot both players, record the pairing in
both directions, enable keepinventory exactly when `len(self._duels) == 2`
after the inserts, then `_reset_round` (world effects on the two players
plus `_update_bar`). -/
def startDuel (p1 p2 : Player) (s : ArenaState) : ArenaState :=
  let s1 := snapshotSave p2 (snapshotSave p1 s)
  let s2 := { s1 with duels := insertA p2.uid p1.uid (insertA p1.uid p2.uid s1.duels) }
  let s3 := if s2.duels.length = 2 then { s2 with keepInv := true } else s2
  updateBar p1 p2 s3

/-- `_end_duel(winner, loser)` (both player handles live, so the
`if not winner or not loser` guard cannot fire): increment the winner's
win score, apply the rating engine `eloF` to both stored ratings, pop the
boss-bar handles for both, restore and pop both snapshots (the delayed
teleport-and-heal is a world effect), unpair both, and disable
keepinventory when no duel remains.  Note that the function never checks
whether the pair is still registered in `self._duels`. -/
def endDuel (eloF : ℤ → ℤ → ℤ × ℤ) (winner loser : Player) (s : ArenaState) : ArenaState :=
  let wins' := insertA winner.uid (winsGet s.wins winner.uid + 1) s.wins
  let wl := eloF (eloGet s.elos winner.uid) (eloGet s.elos loser.uid)
  let elos' := insertA loser.uid wl.2 (insertA winner.uid wl.1 s.elos)
  let bars' := eraseA loser.uid (eraseA winner.uid s.bars)
  let invs' := eraseA loser.uid (eraseA winner.uid s.inventories)
  let locs' := eraseA loser.uid (eraseA winner.uid s.locations)
  let duels' := eraseA loser.uid (eraseA winner.uid s.duels)
  let s' := { s with wins := wins', elos := elos', bars := bars',
                     inventories := invs', locations := locs', duels := duels' }
  if s'.duels.isEmpty then { s' with keepInv := false } else s'

/-- `_end_duel_disconnect(winner, loser_offline)`: the abbreviated end
path run from the quit handler when the opponent is still online.  The
winner's snapshot is restored and popped immediately; the offline loser's
snapshot is deliberately left for the rejoin path. -/
def endDuelDisconnect (eloF : ℤ → ℤ → ℤ × ℤ) (winner loserOffline : Player)
    (s : ArenaState) : ArenaState :=
  let wins' := insertA winner.uid (winsGet s.wins winner.uid + 1) s.wins
  let wl := eloF (eloGet s.elos winner.uid) (eloGet s.elos loserOffline.uid)
  let elos' := insertA loserOffline.uid wl.2 (insertA winner.uid wl.1 s.elos)
  let bars' := match lookupA winner.uid s.bars with
               | some _ => eraseA winner.uid s.bars
               | none => eraseA loserOffline.uid (eraseA winner.uid s.bars)
  let invs' := eraseA winner.uid s.inventories
  let locs' := eraseA winner.uid s.locations
  let duels' := eraseA loserOffline.uid (eraseA winner.uid s.duels)
  let s' := { s with wins := wins', elos := elos', bars := bars',
                     inventories := invs', locations := locs', duels := duels' }
  if s'.duels.isEmpty then { s' with keepInv := false } else s'

/-- `_handle_player_quit(event)`: pop the leaver from `_duels` and
`_bars`; when an opponent was registered, pop the opponent too and, if
`server.get_player(opp_id)` (the `online` oracle) finds them, run the
disconnect end path; with both offline the duel simply evaporates. -/
def handlePlayerQuit (eloF : ℤ → ℤ → ℤ × ℤ) (p : Player)
    (online : ℕ → Option Player) (s : ArenaState) : ArenaState :=
  let oppId? := lookupA p.uid s.duels
  let s1 := { s with duels := eraseA p.uid s.duels, bars := eraseA p.uid s.bars }
  match oppId? with
  | none => s1
  | some oppId =>
    let s2 := { s1 with duels := eraseA oppId s1.duels }
    match online oppId with
    | some opponent => endDuelDisconnect eloF opponent p s2
    | none => s2

/-- `_handle_player_death(event)`: decide which resolution, if any, gets
scheduled (as `_retry_end_duel(win_id, los_id, 5)` after 2 ticks).
`killer?` is the death's attacker when that attacker is a player; the
fallback branch consults the `online` oracle for the victim's registered
opponent.  Returns the `(winner id, loser id)` pair handed to the
scheduler, or `none` when the handler logs and does nothing. -/
def handlePlayerDeath (killer? : Option Player) (victim : Player)
    (online : ℕ → Option Player) (s : ArenaState) : Option (ℕ × ℕ) :=
  match killer? with
  | some k =>
    if lookupA k.uid s.duels = some victim.uid then some (k.uid, victim.uid)
    else none
  | none =>
    match lookupA victim.uid s.duels with
    | some oppId =>
      match online oppId with
      | some _ => some (oppId, victim.uid)
      | none => none
    | none => none

/-- Outcome of a `_retry_end_duel` cascade: the final plugin state, the
tick at which each attempt ran, and how many `players offline` warnings
were logged. -/
structure RetryResult where
  state : ArenaState
  times : List ℕ
  warnings : ℕ
deriving Repr

/-- `_retry_end_duel(win_id, los_id, remaining)` run at tick `t`.
`env i` is what `server.get_player` resolves for the pair at the attempt
run at tick `i` (`none` when either handle is unresolvable), `throws i`
tells whether the `_end_duel` call at tick `i` raises, and `peff i` is the
state the raising call leaves behind.  On failure with `remaining > 0` the
next attempt is rescheduled 2 ticks later with `remaining - 1`; at
`remaining = 0` the attempt is abandoned. -/
def retryEndDuel (eloF : ℤ → ℤ → ℤ × ℤ) (env : ℕ → Option (Player × Player))
    (throws : ℕ → Bool) (peff : ℕ → ArenaState → ArenaState) :
    ℕ → ℕ → ArenaState → RetryResult
  | 0, t, s =>
    match env t with
    | some wl =>
      if throws t then { state := peff t s, times := [t], warnings := 0 }
      else { state := endDuel eloF wl.1 wl.2 s, times := [t], warnings := 0 }
    | none => { state := s, times := [t], warnings := 1 }
  | Nat.succ n, t, s =>
    match env t with
    | some wl =>
      if throws t then
        let r := retryEndDuel eloF env throws peff n (t + 2) (peff t s)
        { state := r.state, times := t :: r.times, warnings := r.warnings }
      else { state := endDuel eloF wl.1 wl.2 s, times := [t], warnings := 0 }
    | none =>
      let r := retryEndDuel eloF env throws peff n (t + 2) s
      { state := r.state, times := t :: r.times, warnings := r.warnings + 1 }

/-- The pending-request resolution performed by `_show_pending`'s submit
handler: `self._pending[player.name].remove(challenger.name)`.  A missing
key raises `KeyError`, a missing name raises `ValueError`; both surface
as `Except.error`. -/
def resolvePending (target challenger : String)
    (pend : List (String × List String)) : Except String (List (String × List String)) :=
  match lookupA target pend with
  | none => Except.error "KeyError"
  | some l =>
    match removeFirst challenger l with
    | none => Except.error "ValueError"
    | some l' => Except.ok (insertA target l' pend)

/-- The `expected_w` intermediate of `_update_elo`. -/
noncomputable def expectedWin (wOld lOld : ℤ) : ℝ :=
  1 / (1 + (10 : ℝ) ^ (((lOld : ℝ) - (wOld : ℝ)) / 400))

/-- The rating engine of `_update_elo` with `k = 32` and
`expected_l = 1 - expected_w` inlined:
`w_new = round(w_old + k * (1 - expected_w))`,
`l_new = round(l_old + k * (0 - expected_l))`. -/
noncomputable def updateElo (wOld lOld : ℤ) : ℤ × ℤ :=
  (round ((wOld : ℝ) + 32 * (1 - expectedWin wOld lOld)),
   round ((lOld : ℝ) + 32 * (0 - (1 - expectedWin wOld lOld))))

/-- The event-level entry points of the duel lifecycle.  `start` is a
`_show_pending` acceptance reaching `_start_duel` (which the plugin allows
for already-paired players), `endd` a resolution attempt whose two player
handles resolved, `quit` and `join` the connection handlers with the
`server.get_player` oracle baked in. -/
inductive DuelOp where
  | start (p1 p2 : Player)
  | endd (winner loser : Player)
  | quit (p : Player) (online : ℕ → Option Player)
  | join (p : Player)

/-- Apply one event to the plugin state. -/
def applyOp (eloF : ℤ → ℤ → ℤ × ℤ) (s : ArenaState) : DuelOp → ArenaState
  | .start p1 p2 => startDuel p1 p2 s
  | .endd w l => endDuel eloF w l s
  | .quit p online => handlePlayerQuit eloF p online s
  | .join p => (handlePlayerJoin p s).2

/-- Run a sequence of events from plugin start. -/
def runOps (eloF : ℤ → ℤ → ℤ × ℤ) (ops : List DuelOp) : ArenaState :=
  ops.foldl (applyOp eloF) initState

/-- Executable symmetry check of the duel registry: every recorded edge
has its reverse edge. -/
def duelSymmB (d : List (ℕ × ℕ)) : Bool :=
  d.all (fun kv => lookupA kv.2 d == some kv.1)

/-- The documented registry invariant: keys are unique, the map is
symmetric and nobody duels themselves. -/
def duelInvP (d : List (ℕ × ℕ)) : Prop :=
  (keysA d).Nodup ∧ ∀ kv ∈ d, lookupA kv.2 d = some kv.1 ∧ kv.2 ≠ kv.1

instance (d : List (ℕ × ℕ)) : Decidable (duelInvP d) :=
  inferInstanceAs
    (Decidable ((keysA d).Nodup ∧ ∀ kv ∈ d, lookupA kv.2 d = some kv.1 ∧ kv.2 ≠ kv.1))

/-- The world-rule gating invariant: keepinventory is on exactly while at
least one duel is active. -/
def gateInv (s : ArenaState) : Prop := s.keepInv = !s.duels.isEmpty

instance (s : ArenaState) : Decidable (gateInv s) :=
  inferInstanceAs (Decidable (s.keepInv = !s.duels.isEmpty))

/-- A concrete stand-in rating engine used when running the lifecycle on
concrete traces (the real engine `updateElo` is not computable because it
rounds a real-valued formula; the lifecycle treats the engine as an
injected collaborator). -/
def eloStub : ℤ → ℤ → ℤ × ℤ := fun w l => (w + 16, l - 16)

/-- Concrete players for counterexample traces and witnesses. -/
def player1 : Player := ⟨1, "alice", [some 7, none], 11, 20, 20⟩

def player2 : Player := ⟨2, "bob", [none, some 9], 22, 20, 20⟩

def player3 : Player := ⟨3, "carol", [], 33, 20, 20⟩

/- Dictionary lemmas. -/

theorem lookupA_insertA_self {κ β : Type} [DecidableEq κ] (k : κ) (v : β)
    (m : List (κ × β)) : lookupA k (insertA k v m) = some v := by
  induction m with
  | nil => simp [insertA, lookupA]
  | cons kv rest ih =>
    by_cases h : kv.1 = k
    · simp [insertA, h, lookupA]
    · simp [insertA, h, lookupA, ih]

theorem lookupA_insertA_ne {κ β : Type} [DecidableEq κ] {k k' : κ} (h : k' ≠ k)
    (v : β) (m : List (κ × β)) : lookupA k' (insertA k v m) = lookupA k' m := by
  have h' : k ≠ k' := Ne.symm h
  induction m with
  | nil => simp [insertA, lookupA, h']
  | cons kv rest ih =>
    by_cases hk : kv.1 = k
    · subst hk
      simp [insertA, lookupA, h']
    · by_cases hk' : kv.1 = k'
      · simp [insertA, hk, lookupA, hk', h]
      · simp [insertA, hk, lookupA, hk', ih]

theorem lookupA_eraseA_ne {κ β : Type} [DecidableEq κ] {k k' : κ} (h : k' ≠ k)
    (m : List (κ × β)) : lookupA k' (eraseA k m) = lookupA k' m := by
  have h' : k ≠ k' := Ne.symm h
  induction m with
  | nil => simp [eraseA]
  | cons kv rest ih =>
    by_cases hk : kv.1 = k
    · subst hk
      simp [eraseA, lookupA, h']
    · by_cases hk' : kv.1 = k'
      · simp [eraseA, hk, lookupA, hk', h]
      · simp [eraseA, hk, lookupA, hk', ih]

theorem lookupA_eq_none_iff {κ β : Type} [DecidableEq κ] (k : κ) (m : List (κ × β)) :
    lookupA k m = none ↔ k ∉ keysA m := by
  induction m with
  | nil => simp [lookupA, keysA]
  | cons kv rest ih =>
    by_cases hk : kv.1 = k
    · simp [lookupA, hk, keysA]
    · have hk2 : k ≠ kv.1 := fun he => hk he.symm
      simp [lookupA, hk, keysA, ih, hk2]

theorem lookupA_isSome_iff {κ β : Type} [DecidableEq κ] (k : κ) (m : List (κ × β)) :
    (lookupA k m).isSome = true ↔ k ∈ keysA m := by
  rw [← not_iff_not]
  simp [Option.isSome_iff_ne_none, lookupA_eq_none_iff]

theorem keysA_insertA {κ β : Type} [DecidableEq κ] (k : κ) (v : β) (m : List (κ × β)) :
    keysA (insertA k v m) = insertKey k (keysA m) := by
  induction m with
  | nil => simp [insertA, insertKey, keysA]
  | cons kv rest ih =>
    simp only [keysA] at ih ⊢
    by_cases hk : kv.1 = k
    · simp [insertA, hk, insertKey, keysA]
    · simp [insertA, hk, insertKey, keysA, ih]

theorem keysA_eraseA {κ β : Type} [DecidableEq κ] (k : κ) (m : List (κ × β)) :
    keysA (eraseA k m) = eraseKey k (keysA m) := by
  induction m with
  | nil => simp [eraseA, eraseKey, keysA]
  | cons kv rest ih =>
    simp only [keysA] at ih ⊢
    by_cases hk : kv.1 = k
    · simp [eraseA, hk, eraseKey, keysA]
    · simp [eraseA, hk, eraseKey, keysA, ih]

theorem eraseKey_sublist {κ : Type} [DecidableEq κ] (k : κ) (l : List κ) :
    List.Sublist (eraseKey k l) l := by
  induction l with
  | nil => simp [eraseKey]
  | cons k' rest ih =>
    by_cases hk : k' = k
    · simp only [eraseKey, if_pos hk]
      exact List.sublist_cons_self k' rest
    · simp only [eraseKey, if_neg hk]
      exact ih.cons₂ k'

theorem nodup_eraseKey {κ : Type} [DecidableEq κ] (k : κ) {l : List κ}
    (h : l.Nodup) : (eraseKey k l).Nodup := (eraseKey_sublist k l).nodup h

theorem insertKey_of_mem {κ : Type} [DecidableEq κ] {k : κ} {l : List κ}
    (h : k ∈ l) : insertKey k l = l := by
  induction l with
  | nil => cases h
  | cons k' rest ih =>
    by_cases hk : k' = k
    · simp [insertKey, hk]
    · have : k ∈ rest := by
        cases h with
        | head => exact absurd rfl hk
        | tail _ hmem => exact hmem
      simp [insertKey, hk, ih this]

theorem insertKey_of_not_mem {κ : Type} [DecidableEq κ] {k : κ} {l : List κ}
    (h : k ∉ l) : insertKey k l = l ++ [k] := by
  induction l with
  | nil => simp [insertKey]
  | cons k' rest ih =>
    have hk : k' ≠ k := fun he => h (he ▸ List.mem_cons_self k' rest)
    have : k ∉ rest := fun hm => h (List.mem_cons_of_mem _ hm)
    simp [insertKey, hk, ih this]

theorem nodup_insertKey {κ : Type} [DecidableEq κ] (k : κ) {l : List κ}
    (h : l.Nodup) : (insertKey k l).Nodup := by
  by_cases hm : k ∈ l
  · rw [insertKey_of_mem hm]; exact h
  · rw [insertKey_of_not_mem hm]
    simp [List.nodup_append, h, List.disjoint_singleton, hm]

theorem lookupA_eraseA_self {κ β : Type} [DecidableEq κ] (k : κ) {m : List (κ × β)}
    (h : (keysA m).Nodup) : lookupA k (eraseA k m) = none := by
  induction m with
  | nil => simp [eraseA, lookupA]
  | cons kv rest ih =>
    simp only [keysA, List.map_cons, List.nodup_cons] at h
    by_cases hk : kv.1 = k
    · simp only [eraseA, if_pos hk]
      rw [lookupA_eq_none_iff]
      exact hk ▸ h.1
    · simp [eraseA, hk, lookupA, ih h.2]

theorem lookupA_mem {κ β : Type} [DecidableEq κ] {k : κ} {v : β} {m : List (κ × β)}
    (h : lookupA k m = some v) : (k, v) ∈ m := by
  induction m with
  | nil => simp [lookupA] at h
  | cons kv rest ih =>
    by_cases hk : kv.1 = k
    · simp only [lookupA, if_pos hk] at h
      injection h with h
      have hkv : kv = (k, v) := by
        cases kv
        simp_all
      rw [← hkv]
      exact List.mem_cons_self _ _
    · simp only [lookupA, if_neg hk] at h
      exact List.mem_cons_of_mem _ (ih h)

theorem mem_lookupA_isSome {κ β : Type} [DecidableEq κ] {kv : κ × β}
    {m : List (κ × β)} (h : kv ∈ m) : (lookupA kv.1 m).isSome = true := by
  induction m with
  | nil => cases h
  | cons hd rest ih =>
    by_cases hk : hd.1 = kv.1
    · simp [lookupA, hk]
    · cases h with
      | head => exact absurd rfl hk
      | tail _ hmem => simp [lookupA, hk, ih hmem]

theorem eraseA_sublist {κ β : Type} [DecidableEq κ] (k : κ) (m : List (κ × β)) :
    List.Sublist (eraseA k m) m := by
  induction m with
  | nil => simp [eraseA]
  | cons kv rest ih =>
    by_cases hk : kv.1 = k
    · simp only [eraseA, if_pos hk]
      exact List.sublist_cons_self kv rest
    · simp only [eraseA, if_neg hk]
      exact ih.cons₂ kv

theorem mem_eraseA {κ β : Type} [DecidableEq κ] {kv : κ × β} {k : κ}
    {m : List (κ × β)} (h : kv ∈ eraseA k m) : kv ∈ m :=
  (eraseA_sublist k m).subset h

theorem mem_insertA {κ β : Type} [DecidableEq κ] {kv : κ × β} {k : κ} {v : β}
    {m : List (κ × β)} (h : kv ∈ insertA k v m) : kv = (k, v) ∨ kv ∈ m := by
  induction m with
  | nil => simpa [insertA] using h
  | cons hd rest ih =>
    by_cases hk : hd.1 = k
    · simp only [insertA, if_pos hk, List.mem_cons] at h
      rcases h with h | h
      · exact Or.inl h
      · exact Or.inr (List.mem_cons_of_mem _ h)
    · simp only [insertA, if_neg hk, List.mem_cons] at h
      rcases h with h | h
      · exact Or.inr (h ▸ List.mem_cons_self hd rest)
      · rcases ih h with h' | h'
        · exact Or.inl h'
        · exact Or.inr (List.mem_cons_of_mem _ h')

theorem insertA_of_lookup_none {κ β : Type} [DecidableEq κ] {k : κ} (v : β)
    {m : List (κ × β)} (h : lookupA k m = none) : insertA k v m = m ++ [(k, v)] := by
  induction m with
  | nil => simp [insertA]
  | cons kv rest ih =>
    by_cases hk : kv.1 = k
    · simp [lookupA, hk] at h
    · simp only [lookupA, if_neg hk] at h
      simp [insertA, hk, ih h]

theorem eraseA_of_lookup_none {κ β : Type} [DecidableEq κ] {k : κ}
    {m : List (κ × β)} (h : lookupA k m = none) : eraseA k m = m := by
  induction m with
  | nil => simp [eraseA]
  | cons kv rest ih =>
    by_cases hk : kv.1 = k
    · simp [lookupA, hk] at h
    · simp only [lookupA, if_neg hk] at h
      simp [eraseA, hk, ih h]

theorem eraseA_insertA {κ β : Type} [DecidableEq κ] (k : κ) (v : β)
    (m : List (κ × β)) : eraseA k (insertA k v m) = eraseA k m := by
  induction m with
  | nil => simp [insertA, eraseA]
  | cons kv rest ih =>
    by_cases hk : kv.1 = k
    · simp [insertA, hk, eraseA]
    · simp [insertA, hk, eraseA, ih]

theorem insertA_ne_nil {κ β : Type} [DecidableEq κ] (k : κ) (v : β)
    (m : List (κ × β)) : insertA k v m ≠ [] := by
  cases m with
  | nil => simp [insertA]
  | cons kv rest =>
    by_cases hk : kv.1 = k <;> simp [insertA, hk]

/- Inventory-restoration lemmas. -/

theorem set_append_cons {α : Type} (l₁ : List α) (a b : α) (l₂ : List α) :
    (l₁ ++ a :: l₂).set l₁.length b = l₁ ++ b :: l₂ := by
  induction l₁ with
  | nil => simp
  | cons h t ih => simp [List.set, ih]

theorem applySlots_fill (inv : List (Option ℕ)) :
    ∀ pre : List (Option ℕ),
      applySlots pre.length inv (pre ++ List.replicate inv.length none) = pre ++ inv := by
  induction inv with
  | nil =>
    intro pre
    simp [applySlots]
  | cons hd rest ih =>
    intro pre
    cases hd with
    | none =>
      simp only [applySlots, List.length_cons, List.replicate_succ]
      have h2 : pre ++ none :: List.replicate rest.length none
          = (pre ++ [none]) ++ List.replicate rest.length none := by simp
      rw [h2]
      have h3 := ih (pre ++ [none])
      simp only [List.length_append, List.length_singleton] at h3
      rw [h3]
      simp
    | some x =>
      simp only [applySlots, List.length_cons, List.replicate_succ]
      rw [set_append_cons pre none (some x) (List.replicate rest.length none)]
      have h2 : pre ++ some x :: List.replicate rest.length none
          = (pre ++ [some x]) ++ List.replicate rest.length none := by simp
      rw [h2]
      have h3 := ih (pre ++ [some x])
      simp only [List.length_append, List.length_singleton] at h3
      rw [h3]
      simp

theorem applySlots_restore (inv : List (Option ℕ)) :
    applySlots 0 inv (List.replicate inv.length none) = inv := by
  have h := applySlots_fill inv []
  simpa using h

/- Pending-list removal lemmas. -/

theorem removeFirst_of_not_mem {c : String} {l : List String} (h : c ∉ l) :
    removeFirst c l = none := by
  induction l with
  | nil => rfl
  | cons y ys ih =>
    have hy : y ≠ c := fun he => h (he ▸ List.mem_cons_self y ys)
    have h2 : c ∉ ys := fun hm => h (List.mem_cons_of_mem _ hm)
    simp [removeFirst, hy, ih h2]

theorem removeFirst_first_match (c : String) (l₁ l₂ : List String) (h : c ∉ l₁) :
    removeFirst c (l₁ ++ c :: l₂) = some (l₁ ++ l₂) := by
  induction l₁ with
  | nil => simp [removeFirst]
  | cons y ys ih =>
    have hy : y ≠ c := fun he => h (he ▸ List.mem_cons_self y ys)
    have h2 : c ∉ ys := fun hm => h (List.mem_cons_of_mem _ hm)
    simp [removeFirst, hy, ih h2]

/- Duel-registry invariant lemmas. -/

theorem duelInv_lookup {d : List (ℕ × ℕ)} (h : duelInvP d) {a b : ℕ}
    (hab : lookupA a d = some b) : lookupA b d = some a ∧ b ≠ a :=
  h.2 (a, b) (lookupA_mem hab)

theorem duelInv_erase_pair {d : List (ℕ × ℕ)} (h : duelInvP d) {a b : ℕ}
    (hab : lookupA a d = some b) :
    duelInvP (eraseA b (eraseA a d)) ∧
      lookupA a (eraseA b (eraseA a d)) = none ∧
      lookupA b (eraseA b (eraseA a d)) = none := by
  obtain ⟨hnd, hsym⟩ := h
  obtain ⟨hba, hne⟩ := duelInv_lookup ⟨hnd, hsym⟩ hab
  have hnd1 : (keysA (eraseA a d)).Nodup := by
    rw [keysA_eraseA]
    exact nodup_eraseKey _ hnd
  have hnd2 : (keysA (eraseA b (eraseA a d))).Nodup := by
    rw [keysA_eraseA]
    exact nodup_eraseKey _ hnd1
  have hla : lookupA a (eraseA b (eraseA a d)) = none := by
    rw [lookupA_eraseA_ne (Ne.symm hne)]
    exact lookupA_eraseA_self a hnd
  have hlb : lookupA b (eraseA b (eraseA a d)) = none := lookupA_eraseA_self b hnd1
  refine ⟨⟨hnd2, ?_⟩, hla, hlb⟩
  intro kv hkv
  have hkvd : kv ∈ d := mem_eraseA (mem_eraseA hkv)
  obtain ⟨hkv2, hkvne⟩ := hsym kv hkvd
  have h2a : kv.2 ≠ a := by
    intro he
    rw [he, hab] at hkv2
    injection hkv2 with hkv1
    have hs := mem_lookupA_isSome hkv
    rw [← hkv1, hlb] at hs
    simp at hs
  have h2b : kv.2 ≠ b := by
    intro he
    rw [he, hba] at hkv2
    injection hkv2 with hkv1
    have hs := mem_lookupA_isSome hkv
    rw [← hkv1, hla] at hs
    simp at hs
  refine ⟨?_, hkvne⟩
  rw [lookupA_eraseA_ne h2b, lookupA_eraseA_ne h2a]
  exact hkv2

theorem duelInv_insert_pair {d : List (ℕ × ℕ)} (h : duelInvP d) {a b : ℕ}
    (ha : lookupA a d = none) (hb : lookupA b d = none) (hne : a ≠ b) :
    duelInvP (insertA b a (insertA a b d)) ∧
      lookupA a (insertA b a (insertA a b d)) = some b ∧
      lookupA b (insertA b a (insertA a b d)) = some a := by
  obtain ⟨hnd, hsym⟩ := h
  have hla : lookupA a (insertA b a (insertA a b d)) = some b := by
    rw [lookupA_insertA_ne hne, lookupA_insertA_self]
  have hlb : lookupA b (insertA b a (insertA a b d)) = some a :=
    lookupA_insertA_self b a _
  have hnd2 : (keysA (insertA b a (insertA a b d))).Nodup := by
    rw [keysA_insertA, keysA_insertA]
    exact nodup_insertKey _ (nodup_insertKey _ hnd)
  refine ⟨⟨hnd2, ?_⟩, hla, hlb⟩
  intro kv hkv
  rcases mem_insertA hkv with hkv | hkv
  · rw [hkv]
    exact ⟨hla, hne⟩
  · rcases mem_insertA hkv with hkv | hkv
    · rw [hkv]
      exact ⟨hlb, Ne.symm hne⟩
    · obtain ⟨hkv2, hkvne⟩ := hsym kv hkv
      have h2a : kv.2 ≠ a := by
        intro he
        rw [he, ha] at hkv2
        cases hkv2
      have h2b : kv.2 ≠ b := by
        intro he
        rw [he, hb] at hkv2
        cases hkv2
      exact ⟨by rw [lookupA_insertA_ne h2b, lookupA_insertA_ne h2a]; exact hkv2, hkvne⟩

/- Projection lemmas relating the lifecycle operations to the individual
   dictionaries they touch. -/

theorem updateBar_duels (p1 p2 : Player) (t : ArenaState) :
    (updateBar p1 p2 t).duels = t.duels := by
  unfold updateBar
  split <;> rfl

theorem updateBar_keepInv (p1 p2 : Player) (t : ArenaState) :
    (updateBar p1 p2 t).keepInv = t.keepInv := by
  unfold updateBar
  split <;> rfl

theorem updateBar_inventories (p1 p2 : Player) (t : ArenaState) :
    (updateBar p1 p2 t).inventories = t.inventories := by
  unfold updateBar
  split <;> rfl

theorem updateBar_locations (p1 p2 : Player) (t : ArenaState) :
    (updateBar p1 p2 t).locations = t.locations := by
  unfold updateBar
  split <;> rfl

theorem startDuel_duels (p1 p2 : Player) (s : ArenaState) :
    (startDuel p1 p2 s).duels
      = insertA p2.uid p1.uid (insertA p1.uid p2.uid s.duels) := by
  simp only [startDuel, snapshotSave]
  rw [updateBar_duels]
  split <;> rfl

theorem startDuel_keepInv (p1 p2 : Player) (s : ArenaState) :
    (startDuel p1 p2 s).keepInv
      = if (insertA p2.uid p1.uid (insertA p1.uid p2.uid s.duels)).length = 2
          then true else s.keepInv := by
  simp only [startDuel, snapshotSave]
  rw [updateBar_keepInv]
  split <;> rfl

theorem startDuel_inventories (p1 p2 : Player) (s : ArenaState) :
    (startDuel p1 p2 s).inventories
      = insertA p2.uid p2.inv (insertA p1.uid p1.inv s.inventories) := by
  simp only [startDuel, snapshotSave]
  rw [updateBar_inventories]
  split <;> rfl

theorem startDuel_locations (p1 p2 : Player) (s : ArenaState) :
    (startDuel p1 p2 s).locations
      = insertA p2.uid p2.loc (insertA p1.uid p1.loc s.locations) := by
  simp only [startDuel, snapshotSave]
  rw [updateBar_locations]
  split <;> rfl

theorem endDuel_duels (f : ℤ → ℤ → ℤ × ℤ) (w l : Player) (s : ArenaState) :
    (endDuel f w l s).duels = eraseA l.uid (eraseA w.uid s.duels) := by
  simp only [endDuel]
  split <;> rfl

theorem endDuel_keepInv (f : ℤ → ℤ → ℤ × ℤ) (w l : Player) (s : ArenaState) :
    (endDuel f w l s).keepInv
      = if (eraseA l.uid (eraseA w.uid s.duels)).isEmpty then false
        else s.keepInv := by
  simp only [endDuel]
  split <;> simp_all

theorem endDuel_inventories (f : ℤ → ℤ → ℤ × ℤ) (w l : Player) (s : ArenaState) :
    (endDuel f w l s).inventories
      = eraseA l.uid (eraseA w.uid s.inventories) := by
  simp only [endDuel]
  split <;> rfl

theorem endDuel_locations (f : ℤ → ℤ → ℤ × ℤ) (w l : Player) (s : ArenaState) :
    (endDuel f w l s).locations
      = eraseA l.uid (eraseA w.uid s.locations) := by
  simp only [endDuel]
  split <;> rfl

theorem endDuelDisconnect_duels (f : ℤ → ℤ → ℤ × ℤ) (w lo : Player) (s : ArenaState) :
    (endDuelDisconnect f w lo s).duels = eraseA lo.uid (eraseA w.uid s.duels) := by
  simp only [endDuelDisconnect]
  split <;> split <;> rfl

theorem endDuelDisconnect_keepInv (f : ℤ → ℤ → ℤ × ℤ) (w lo : Player)
    (s : ArenaState) :
    (endDuelDisconnect f w lo s).keepInv
      = if (eraseA lo.uid (eraseA w.uid s.duels)).isEmpty then false
        else s.keepInv := by
  simp only [endDuelDisconnect]
  split <;> split <;> simp_all

theorem endDuelDisconnect_inventories (f : ℤ → ℤ → ℤ × ℤ) (w lo : Player)
    (s : ArenaState) :
    (endDuelDisconnect f w lo s).inventories = eraseA w.uid s.inventories := by
  simp only [endDuelDisconnect]
  split <;> split <;> rfl

theorem endDuelDisconnect_locations (f : ℤ → ℤ → ℤ × ℤ) (w lo : Player)
    (s : ArenaState) :
    (endDuelDisconnect f w lo s).locations = eraseA w.uid s.locations := by
  simp only [endDuelDisconnect]
  split <;> split <;> rfl

theorem quit_eq_none (f : ℤ → ℤ → ℤ × ℤ) (p : Player) (online : ℕ → Option Player)
    {s : ArenaState} (h : lookupA p.uid s.duels = none) :
    handlePlayerQuit f p online s
      = { s with duels := eraseA p.uid s.duels, bars := eraseA p.uid s.bars } := by
  simp only [handlePlayerQuit, h]

theorem quit_eq_some_offline (f : ℤ → ℤ → ℤ × ℤ) (p : Player)
    (online : ℕ → Option Player) {s : ArenaState} {oppId : ℕ}
    (h : lookupA p.uid s.duels = some oppId) (ho : online oppId = none) :
    handlePlayerQuit f p online s
      = { s with duels := eraseA oppId (eraseA p.uid s.duels),
                 bars := eraseA p.uid s.bars } := by
  simp only [handlePlayerQuit, h, ho]

theorem quit_eq_some_online (f : ℤ → ℤ → ℤ × ℤ) (p : Player)
    (online : ℕ → Option Player) {s : ArenaState} {oppId : ℕ} {opp : Player}
    (h : lookupA p.uid s.duels = some oppId) (ho : online oppId = some opp) :
    handlePlayerQuit f p online s
      = endDuelDisconnect f opp p
          { s with duels := eraseA oppId (eraseA p.uid s.duels),
                   bars := eraseA p.uid s.bars } := by
  simp only [handlePlayerQuit, h, ho]

theorem join_duels (p : Player) (s : ArenaState) :
    ((handlePlayerJoin p s).2).duels = s.duels := by
  simp only [handlePlayerJoin]
  split <;> rfl

theorem join_keepInv (p : Player) (s : ArenaState) :
    ((handlePlayerJoin p s).2).keepInv = s.keepInv := by
  simp only [handlePlayerJoin]
  split <;> rfl

theorem join_inventories (p : Player) (s : ArenaState) :
    ((handlePlayerJoin p s).2).inventories
      = if (lookupA p.uid s.inventories).isSome then eraseA p.uid s.inventories
        else s.inventories := by
  simp only [handlePlayerJoin]
  split <;> simp_all

theorem join_locations (p : Player) (s : ArenaState) :
    ((handlePlayerJoin p s).2).locations
      = if (lookupA p.uid s.inventories).isSome then eraseA p.uid s.locations
        else s.locations := by
  simp only [handlePlayerJoin]
  split <;> simp_all

/- Rounding helper for the ELO fixtures. -/

theorem round_bounds (x : ℝ) (z : ℤ) (h1 : (z : ℝ) ≤ x + 1 / 2)
    (h2 : x + 1 / 2 < z + 1) : round x = z := by
  rw [round_eq]
  exact Int.floor_eq_iff.mpr ⟨h1, h2⟩

theorem updateElo_at_1000_1000 : updateElo 1000 1000 = (1016, 984) := by
  unfold updateElo expectedWin
  have h0 : (((1000 : ℤ) : ℝ) - ((1000 : ℤ) : ℝ)) / 400 = 0 := by norm_num
  rw [h0, Real.rpow_zero]
  rw [Prod.mk.injEq]
  constructor
  · apply round_bounds
    · push_cast
      norm_num
    · push_cast
      norm_num
  · apply round_bounds
    · push_cast
      norm_num
    · push_cast
      norm_num

theorem updateElo_at_1200_1000 : updateElo 1200 1000 = (1208, 992) := by
  unfold updateElo expectedWin
  have h0 : (((1000 : ℤ) : ℝ) - ((1200 : ℤ) : ℝ)) / 400 = -(1 / 2) := by norm_num
  rw [h0]
  set u : ℝ := (10 : ℝ) ^ (-(1 / 2) : ℝ) with hu
  have hupos : 0 < u := Real.rpow_pos_of_pos (by norm_num) _
  have husq : u * u = 1 / 10 := by
    rw [hu, ← Real.rpow_add (by norm_num : (0 : ℝ) < 10)]
    rw [show (-(1 / 2) + -(1 / 2) : ℝ) = ((-1 : ℤ) : ℝ) by norm_num]
    rw [Real.rpow_intCast]
    norm_num
  have hlb : (0.31 : ℝ) < u := by
    by_contra hc
    push_neg at hc
    have h2 : u * u ≤ (0.31 : ℝ) * 0.31 :=
      mul_le_mul hc hc (le_of_lt hupos) (by norm_num)
    rw [husq] at h2
    norm_num at h2
  have hub : u < (0.32 : ℝ) := by
    by_contra hc
    push_neg at hc
    have h2 : (0.32 : ℝ) * 0.32 ≤ u * u :=
      mul_le_mul hc hc (by norm_num) (le_of_lt hupos)
    rw [husq] at h2
    norm_num at h2
  have h1u : (0 : ℝ) < 1 + u := by linarith
  have hval : (1 : ℝ) - 1 / (1 + u) = u / (1 + u) := by field_simp
  have hq1 : (7.5 : ℝ) < 32 * (1 - 1 / (1 + u)) := by
    rw [hval, ← mul_div_assoc, lt_div_iff₀ h1u]
    nlinarith
  have hq2 : 32 * (1 - 1 / (1 + u)) < 8.5 := by
    rw [hval, ← mul_div_assoc, div_lt_iff₀ h1u]
    nlinarith
  rw [Prod.mk.injEq]
  constructor
  · apply round_bounds
    · push_cast
      linarith
    · push_cast
      linarith
  · apply round_bounds
    · push_cast
      linarith
    · push_cast
      linarith

/-- C3: for every pair of current ratings (W, L) the rating update computes
expectedWin = 1 / (1 + 10 ^ ((L - W) / 400)) with fixed K = 32 and returns
newWinner = round(W + 32 * (1 - expectedWin)) and
newLoser = round(L + 32 * (0 - (1 - expectedWin))), both integers. -/
theorem updateElo_matches_spec_formula (W L : ℤ) :
    updateElo W L =
      (round ((W : ℝ) + 32 * (1 - 1 / (1 + (10 : ℝ) ^ (((L : ℝ) - (W : ℝ)) / 400)))),
       round ((L : ℝ) + 32 * (0 - (1 - 1 / (1 + (10 : ℝ) ^ (((L : ℝ) - (W : ℝ)) / 400)))))) :=
  rfl

/-- C4 counterexample: the rating update applied to (1200, 1000) does not
return (1212, 988); the code computes (1208, 992). -/
theorem elo_fixture_cex : updateElo 1200 1000 ≠ (1212, 988) := by
  rw [updateElo_at_1200_1000]
  decide

/-- C4 (amended): update(1000, 1000) = (1016, 984) exactly, and
update(1200, 1000) = (1208, 992) exactly, the integers pinned by the
round-half-up rule on the real-valued formula (no tie arises at these
inputs, so Python's round-half-to-even agrees). -/
theorem elo_fixtures :
    updateElo 1000 1000 = (1016, 984) ∧ updateElo 1200 1000 = (1208, 992) :=
  ⟨updateElo_at_1000_1000, updateElo_at_1200_1000⟩

/-- C9 counterexample: resolving a pending challenge raises instead of
no-opping when the name is absent: with no pending entry for the target
the lookup raises KeyError, and with a pending list not containing the
challenger the removal raises ValueError. -/
theorem resolve_raises_cex :
    resolvePending "bob" "alice" [] = Except.error "KeyError"
    ∧ resolvePending "bob" "alice" [("bob", ["carl"])] = Except.error "ValueError" := by
  exact ⟨rfl, rfl⟩

/-- C9 (amended): resolve(target, challenger) removes the first matching
entry from the target's pending list when the challenger name is present;
when the target has no pending list the operation raises KeyError, and
when the challenger name is missing from the list it raises ValueError —
it is not a silent no-op.  (The menu flow only calls it with a name read
from the list moments earlier, but nothing re-checks at submission time.) -/
theorem resolve_spec (t c : String) (pend : List (String × List String)) :
    (lookupA t pend = none → resolvePending t c pend = Except.error "KeyError")
    ∧ (∀ l, lookupA t pend = some l → c ∉ l →
        resolvePending t c pend = Except.error "ValueError")
    ∧ (∀ l₁ l₂, lookupA t pend = some (l₁ ++ c :: l₂) → c ∉ l₁ →
        resolvePending t c pend = Except.ok (insertA t (l₁ ++ l₂) pend)) := by
  refine ⟨?_, ?_, ?_⟩
  · intro h
    simp [resolvePending, h]
  · intro l h hc
    simp [resolvePending, h, removeFirst_of_not_mem hc]
  · intro l₁ l₂ h hc
    simp [resolvePending, h, removeFirst_first_match c l₁ l₂ hc]

/-- C9 witness: a concrete resolution removing the first match. -/
theorem resolve_spec_witness :
    resolvePending "bob" "alice" [("bob", ["carl", "alice", "dee"])]
      = Except.ok (insertA "bob" ["carl", "dee"] [("bob", ["carl", "alice", "dee"])]) :=
  (resolve_spec "bob" "alice" [("bob", ["carl", "alice", "dee"])]).2.2
    ["carl"] ["dee"] rfl (by decide)

theorem isEmpty_false_of_ne_nil {α : Type} {l : List α} (h : l ≠ []) :
    l.isEmpty = false := by
  cases l with
  | nil => exact absurd rfl h
  | cons a t => rfl

/-- C2 counterexample: the duel registry is not symmetric at every
reachable state.  With a duel between players 1 and 2 active, accepting a
still-pending challenge pairs player 1 with player 3: `_start_duel`
overwrites 1 -> 3 and appends 3 -> 1, leaving the stale edge 2 -> 1, so
the registry fails the symmetry check. -/
theorem duel_registry_asymmetry_cex :
    duelSymmB (runOps eloStub
      [DuelOp.start player1 player2, DuelOp.start player1 player3]).duels = false := by
  decide

/-- C2 (amended): the symmetry invariant (registry symmetric, each
identity a key at most once, nobody paired with themselves) is preserved
by quit handling and join unconditionally; by duel end provided the
resolved pair is still mutually registered or both participants are
already absent (a stale resolution firing after the winner has been
re-paired with a third player would pop one side of the new pair and
break symmetry, in code and model alike); and by duel start provided
neither participant is already a key and the two are distinct — a
precondition the accept path does not itself enforce.  Under those
preconditions, after pair(a,b) each maps to the other, and after any
unpair both lookups are none. -/
theorem duel_registry_invariant (f : ℤ → ℤ → ℤ × ℤ) (s : ArenaState)
    (hinv : duelInvP s.duels) :
    (∀ p1 p2 : Player, p1.uid ≠ p2.uid →
        lookupA p1.uid s.duels = none → lookupA p2.uid s.duels = none →
        duelInvP (startDuel p1 p2 s).duels
          ∧ lookupA p1.uid (startDuel p1 p2 s).duels = some p2.uid
          ∧ lookupA p2.uid (startDuel p1 p2 s).duels = some p1.uid)
    ∧ (∀ w l : Player,
        (lookupA w.uid s.duels = some l.uid
          ∨ (lookupA w.uid s.duels = none ∧ lookupA l.uid s.duels = none)) →
        duelInvP (endDuel f w l s).duels
          ∧ lookupA w.uid (endDuel f w l s).duels = none
          ∧ lookupA l.uid (endDuel f w l s).duels = none)
    ∧ (∀ (p : Player) (online : ℕ → Option Player),
        (∀ id q, online id = some q → q.uid = id) →
        duelInvP (handlePlayerQuit f p online s).duels
          ∧ lookupA p.uid (handlePlayerQuit f p online s).duels = none
          ∧ (∀ oppId, lookupA p.uid s.duels = some oppId →
              lookupA oppId (handlePlayerQuit f p online s).duels = none))
    ∧ (∀ p : Player, duelInvP ((handlePlayerJoin p s).2).duels) := by
  refine ⟨?_, ?_, ?_, ?_⟩
  · intro p1 p2 hne h1 h2
    rw [startDuel_duels]
    exact duelInv_insert_pair hinv h1 h2 hne
  · intro w l hcase
    rw [endDuel_duels]
    rcases hcase with hwl | ⟨hw, hl⟩
    · exact duelInv_erase_pair hinv hwl
    · rw [eraseA_of_lookup_none hw, eraseA_of_lookup_none hl]
      exact ⟨hinv, hw, hl⟩
  · intro p online honest
    cases hopp : lookupA p.uid s.duels with
    | none =>
      rw [quit_eq_none f p online hopp]
      dsimp only
      rw [eraseA_of_lookup_none hopp]
      refine ⟨hinv, hopp, ?_⟩
      intro oppId habs
      exact Option.noConfusion habs
    | some oppId =>
      obtain ⟨hinv', hp, ho⟩ := duelInv_erase_pair hinv hopp
      cases honline : online oppId with
      | none =>
        rw [quit_eq_some_offline f p online hopp honline]
        dsimp only
        refine ⟨hinv', hp, ?_⟩
        intro oppId' h'
        injection h' with h'
        rw [← h']
        exact ho
      | some opp =>
        rw [quit_eq_some_online f p online hopp honline]
        have hoppuid : opp.uid = oppId := honest oppId opp honline
        have hdd : (endDuelDisconnect f opp p
            { s with duels := eraseA oppId (eraseA p.uid s.duels),
                     bars := eraseA p.uid s.bars }).duels
            = eraseA oppId (eraseA p.uid s.duels) := by
          rw [endDuelDisconnect_duels]
          dsimp only
          rw [hoppuid, eraseA_of_lookup_none ho, eraseA_of_lookup_none hp]
        rw [hdd]
        refine ⟨hinv', hp, ?_⟩
        intro oppId' h'
        injection h' with h'
        rw [← h']
        exact ho
  · intro p
    rw [join_duels]
    exact hinv

/-- C2 witness: pairing two idle players from the empty state yields a
symmetric registry with both lookups set. -/
theorem duel_registry_invariant_witness :
    duelInvP (startDuel player1 player2 initState).duels
      ∧ lookupA player1.uid (startDuel player1 player2 initState).duels
          = some player2.uid :=
  have h := (duel_registry_invariant eloStub initState (by decide)).1 player1 player2
    (by decide) (by decide) (by decide)
  ⟨h.1, h.2.1⟩

/-- C5 counterexample: when the last duel ends through a quit with the
opponent also offline, the registry empties but keepinventory stays
enabled — the rule is not disabled on that duel-ending path, and the
"enabled iff a duel is active" equivalence fails in the resulting state. -/
theorem keepinventory_gate_cex :
    (runOps eloStub [DuelOp.start player1 player2,
        DuelOp.quit player1 (fun _ => none)]).duels = []
    ∧ (runOps eloStub [DuelOp.start player1 player2,
        DuelOp.quit player1 (fun _ => none)]).keepInv = true := by
  exact ⟨rfl, rfl⟩

/-- C5 (amended): keepinventory is enabled when the first duel starts and
disabled when the registry empties through `_end_duel` (kill resolution)
or through a disconnect forfeit with the opponent online; the gating
equivalence "enabled iff at least one duel is active" is preserved by
duel start (between distinct players), by every `_end_duel`, by quits of
non-duelling players, by quits with the opponent online, and by join —
but not by the quit path with both participants offline. -/
theorem keepinventory_gating (f : ℤ → ℤ → ℤ × ℤ) (s : ArenaState)
    (hg : gateInv s) :
    (∀ p1 p2 : Player, p1.uid ≠ p2.uid → gateInv (startDuel p1 p2 s))
    ∧ (∀ w l : Player, gateInv (endDuel f w l s))
    ∧ (∀ (p : Player) (online : ℕ → Option Player),
        lookupA p.uid s.duels = none → gateInv (handlePlayerQuit f p online s))
    ∧ (∀ (p : Player) (online : ℕ → Option Player) (oppId : ℕ) (opp : Player),
        lookupA p.uid s.duels = some oppId → online oppId = some opp →
        gateInv (handlePlayerQuit f p online s))
    ∧ (∀ p : Player, gateInv (handlePlayerJoin p s).2) := by
  unfold gateInv at hg
  refine ⟨?_, ?_, ?_, ?_, ?_⟩
  · intro p1 p2 hne
    unfold gateInv
    rw [startDuel_keepInv, startDuel_duels]
    have hne' : (insertA p2.uid p1.uid (insertA p1.uid p2.uid s.duels)) ≠ [] :=
      insertA_ne_nil _ _ _
    rw [isEmpty_false_of_ne_nil hne']
    split
    · rfl
    · cases hd : s.duels with
      | nil =>
        exfalso
        rename_i hlen
        apply hlen
        rw [hd]
        simp [insertA, hne]
      | cons kv rest =>
        rw [hg, hd]
        rfl
  · intro w l
    unfold gateInv
    rw [endDuel_keepInv, endDuel_duels]
    cases hE : (eraseA l.uid (eraseA w.uid s.duels)).isEmpty with
    | true => rfl
    | false =>
      show s.keepInv = !false
      cases hd : s.duels with
      | nil =>
        exfalso
        rw [hd] at hE
        simp [eraseA] at hE
      | cons kv rest =>
        rw [hg, hd]
        rfl
  · intro p online h
    unfold gateInv
    rw [quit_eq_none f p online h]
    show s.keepInv = !(eraseA p.uid s.duels).isEmpty
    rw [eraseA_of_lookup_none h]
    exact hg
  · intro p online oppId opp h ho
    unfold gateInv
    rw [quit_eq_some_online f p online h ho]
    rw [endDuelDisconnect_keepInv, endDuelDisconnect_duels]
    have hsd : s.duels ≠ [] := by
      intro heq
      rw [heq] at h
      cases h
    cases hE : (eraseA p.uid (eraseA opp.uid
        (eraseA oppId (eraseA p.uid s.duels)))).isEmpty with
    | true => rfl
    | false =>
      show s.keepInv = !false
      rw [hg, isEmpty_false_of_ne_nil hsd]
  · intro p
    unfold gateInv
    rw [join_keepInv, join_duels]
    exact hg

/-- C5 witness: starting the first duel from the empty state enables the
rule and establishes the gating equivalence. -/
theorem keepinventory_gating_witness :
    gateInv (startDuel player1 player2 initState) :=
  (keepinventory_gating eloStub initState (by decide)).1 player1 player2 (by decide)

/-- C6 counterexample: `_start_duel` reached for a participant already in
the registry (player 1, paired with player 2, accepts player 3's pending
challenge) does not fail: it silently overwrites 1 -> 3 and leaves the
stale reverse edge 2 -> 1 in place. -/
theorem pair_silent_overwrite_cex :
    lookupA player1.uid (runOps eloStub
        [DuelOp.start player1 player2, DuelOp.start player1 player3]).duels
      = some player3.uid
    ∧ lookupA player2.uid (runOps eloStub
        [DuelOp.start player1 player2, DuelOp.start player1 player3]).duels
      = some player1.uid := by
  exact ⟨rfl, rfl⟩

/-- C6 (amended): pairing a participant who is already a key does not
fail loudly: `_start_duel` contains no assertion and the accept path no
already-duelling check, so the call silently overwrites the participant's
entry and leaks the stale duel (the old opponent still points at them). -/
theorem pair_silent_overwrite (s : ArenaState) (p1 p2 p3 : Player)
    (h12 : lookupA p1.uid s.duels = some p2.uid)
    (h21 : lookupA p2.uid s.duels = some p1.uid)
    (h13 : p1.uid ≠ p3.uid) (h23 : p2.uid ≠ p3.uid) (h21ne : p2.uid ≠ p1.uid) :
    lookupA p1.uid (startDuel p1 p3 s).duels = some p3.uid
    ∧ lookupA p3.uid (startDuel p1 p3 s).duels = some p1.uid
    ∧ lookupA p2.uid (startDuel p1 p3 s).duels = some p1.uid := by
  refine ⟨?_, ?_, ?_⟩
  · rw [startDuel_duels, lookupA_insertA_ne h13, lookupA_insertA_self]
  · rw [startDuel_duels, lookupA_insertA_self]
  · rw [startDuel_duels, lookupA_insertA_ne h23, lookupA_insertA_ne h21ne]
    exact h21

/-- C6 witness: the overwrite at the concrete reachable state with 1 and 2
paired. -/
theorem pair_silent_overwrite_witness :
    lookupA player2.uid (startDuel player1 player3
        (runOps eloStub [DuelOp.start player1 player2])).duels
      = some player1.uid :=
  (pair_silent_overwrite (runOps eloStub [DuelOp.start player1 player2])
    player1 player2 player3 rfl rfl (by decide) (by decide) (by decide)).2.2

/- Retry-loop bookkeeping lemma, by induction on the remaining budget. -/

theorem retry_spec (eloF : ℤ → ℤ → ℤ × ℤ) (env : ℕ → Option (Player × Player))
    (throws : ℕ → Bool) (peff : ℕ → ArenaState → ArenaState) :
    ∀ (n t : ℕ) (s : ArenaState),
      (retryEndDuel eloF env throws peff n t s).times.head? = some t
      ∧ (retryEndDuel eloF env throws peff n t s).times.length ≤ n + 1
      ∧ List.Chain' (fun a b => b = a + 2) (retryEndDuel eloF env throws peff n t s).times
      ∧ ((∀ i, env i = none) →
          (retryEndDuel eloF env throws peff n t s).state = s
          ∧ (retryEndDuel eloF env throws peff n t s).times.length = n + 1
          ∧ (retryEndDuel eloF env throws peff n t s).warnings = n + 1) := by
  intro n
  induction n with
  | zero =>
    intro t s
    cases henv : env t with
    | some wl =>
      by_cases ht : throws t = true
      · refine ⟨?_, ?_, ?_, ?_⟩
        · simp [retryEndDuel, henv, ht]
        · simp [retryEndDuel, henv, ht]
        · simp [retryEndDuel, henv, ht]
        · intro hoff
          rw [hoff t] at henv
          exact Option.noConfusion henv
      · refine ⟨?_, ?_, ?_, ?_⟩
        · simp [retryEndDuel, henv, ht]
        · simp [retryEndDuel, henv, ht]
        · simp [retryEndDuel, henv, ht]
        · intro hoff
          rw [hoff t] at henv
          exact Option.noConfusion henv
    | none =>
      refine ⟨?_, ?_, ?_, ?_⟩ <;> simp [retryEndDuel, henv]
  | succ n ih =>
    intro t s
    cases henv : env t with
    | some wl =>
      by_cases ht : throws t = true
      · obtain ⟨ihh, ihlen, ihch, ihoff⟩ := ih (t + 2) (peff t s)
        refine ⟨?_, ?_, ?_, ?_⟩
        · simp [retryEndDuel, henv, ht]
        · simp only [retryEndDuel, henv, ht, if_true, List.length_cons]
          exact Nat.succ_le_succ ihlen
        · simp only [retryEndDuel, henv, ht, if_true]
          rw [List.chain'_cons']
          refine ⟨?_, ihch⟩
          intro b hb
          rw [ihh] at hb
          injection hb with hb
          rw [← hb]
        · intro hoff
          rw [hoff t] at henv
          exact Option.noConfusion henv
      · refine ⟨?_, ?_, ?_, ?_⟩
        · simp [retryEndDuel, henv, ht]
        · simp [retryEndDuel, henv, ht]
        · simp [retryEndDuel, henv, ht]
        · intro hoff
          rw [hoff t] at henv
          exact Option.noConfusion henv
    | none =>
      obtain ⟨ihh, ihlen, ihch, ihoff⟩ := ih (t + 2) s
      refine ⟨?_, ?_, ?_, ?_⟩
      · simp [retryEndDuel, henv]
      · simp only [retryEndDuel, henv, List.length_cons]
        exact Nat.succ_le_succ ihlen
      · simp only [retryEndDuel, henv]
        rw [List.chain'_cons']
        refine ⟨?_, ihch⟩
        intro b hb
        rw [ihh] at hb
        injection hb with hb
        rw [← hb]
      · intro hoff
        obtain ⟨hs, hlen, hw⟩ := ihoff hoff
        refine ⟨?_, ?_, ?_⟩ <;>
          simp [retryEndDuel, henv, hs, hlen, hw]

/-- C7: a scheduled resolution with retry budget 5 performs at most 6
attempts (the initial attempt plus 5 retries), consecutive attempts are
separated by the fixed 2-tick delay, and the cascade terminates (it is a
total function of the decreasing budget); when every attempt finds a
player handle unresolvable, the budget is exhausted after exactly 6
attempts, a warning is logged on each, and the plugin state — in
particular the duel pairing — is left completely unchanged. -/
theorem retry_bounded (eloF : ℤ → ℤ → ℤ × ℤ) (env : ℕ → Option (Player × Player))
    (throws : ℕ → Bool) (peff : ℕ → ArenaState → ArenaState) (t : ℕ)
    (s : ArenaState) :
    (retryEndDuel eloF env throws peff 5 t s).times.length ≤ 6
    ∧ List.Chain' (fun a b => b = a + 2) (retryEndDuel eloF env throws peff 5 t s).times
    ∧ ((∀ i, env i = none) →
        (retryEndDuel eloF env throws peff 5 t s).state = s
        ∧ (retryEndDuel eloF env throws peff 5 t s).times.length = 6
        ∧ (retryEndDuel eloF env throws peff 5 t s).warnings = 6) := by
  obtain ⟨h1, h2, h3, h4⟩ := retry_spec eloF env throws peff 5 t s
  exact ⟨h2, h3, h4⟩

/-- C7 witness: with both players unresolvable on every attempt, the
budget-5 cascade from the post-start state runs 6 attempts, warns 6
times and leaves the state intact. -/
theorem retry_bounded_witness :
    (retryEndDuel eloStub (fun _ => none) (fun _ => false) (fun _ s => s) 5 0
        (runOps eloStub [DuelOp.start player1 player2])).state
      = runOps eloStub [DuelOp.start player1 player2]
    ∧ (retryEndDuel eloStub (fun _ => none) (fun _ => false) (fun _ s => s) 5 0
        (runOps eloStub [DuelOp.start player1 player2])).times.length = 6
    ∧ (retryEndDuel eloStub (fun _ => none) (fun _ => false) (fun _ s => s) 5 0
        (runOps eloStub [DuelOp.start player1 player2])).warnings = 6 :=
  (retry_bounded eloStub (fun _ => none) (fun _ => false) (fun _ s => s) 0
    (runOps eloStub [DuelOp.start player1 player2])).2.2 (fun _ => rfl)

/- Snapshot-map synchrony: auxiliary invariant on the key lists. -/

theorem syncKeys_applyOp (f : ℤ → ℤ → ℤ × ℤ) (s : ArenaState) (op : DuelOp)
    (h : keysA s.inventories = keysA s.locations) :
    keysA (applyOp f s op).inventories = keysA (applyOp f s op).locations := by
  cases op with
  | start p1 p2 =>
    show keysA (startDuel p1 p2 s).inventories = keysA (startDuel p1 p2 s).locations
    rw [startDuel_inventories, startDuel_locations, keysA_insertA, keysA_insertA,
      keysA_insertA, keysA_insertA, h]
  | endd w l =>
    show keysA (endDuel f w l s).inventories = keysA (endDuel f w l s).locations
    rw [endDuel_inventories, endDuel_locations, keysA_eraseA, keysA_eraseA,
      keysA_eraseA, keysA_eraseA, h]
  | quit p online =>
    show keysA (handlePlayerQuit f p online s).inventories
        = keysA (handlePlayerQuit f p online s).locations
    cases hopp : lookupA p.uid s.duels with
    | none =>
      rw [quit_eq_none f p online hopp]
      exact h
    | some oppId =>
      cases honline : online oppId with
      | none =>
        rw [quit_eq_some_offline f p online hopp honline]
        exact h
      | some opp =>
        rw [quit_eq_some_online f p online hopp honline]
        rw [endDuelDisconnect_inventories, endDuelDisconnect_locations]
        dsimp only
        rw [keysA_eraseA, keysA_eraseA, h]
  | join p =>
    show keysA ((handlePlayerJoin p s).2).inventories
        = keysA ((handlePlayerJoin p s).2).locations
    rw [join_inventories, join_locations]
    cases hl : (lookupA p.uid s.inventories).isSome with
    | true =>
      show keysA (eraseA p.uid s.inventories) = keysA (eraseA p.uid s.locations)
      rw [keysA_eraseA, keysA_eraseA, h]
    | false => exact h

theorem syncKeys_foldl (f : ℤ → ℤ → ℤ × ℤ) :
    ∀ (ops : List DuelOp) (s : ArenaState),
      keysA s.inventories = keysA s.locations →
      keysA (List.foldl (applyOp f) s ops).inventories
        = keysA (List.foldl (applyOp f) s ops).locations := by
  intro ops
  induction ops with
  | nil => intro s h; exact h
  | cons op rest ih =>
    intro s h
    exact ih (applyOp f s op) (syncKeys_applyOp f s op h)

/-- C8: save(p) (the per-player snapshot taken at duel start) followed by
the restoration path (the join handler, the code's realisation of
restore) reinstates exactly the saved inventory contents — each item at
its original slot index, empty slots skipped over the cleared inventory —
and the saved location, heals the player, and discards both entries, so a
second restoration is a no-op; restoration for a player with no entry
changes nothing. -/
theorem snapshot_roundtrip (p q r : Player) (s : ArenaState)
    (hq : q.uid = p.uid) (hlen : q.inv.length = p.inv.length)
    (hni : (keysA s.inventories).Nodup)
    (hr : lookupA r.uid s.inventories = none) :
    handlePlayerJoin q (snapshotSave p s)
      = ({ q with inv := p.inv, loc := p.loc, health := q.maxHealth },
         { s with inventories := eraseA p.uid s.inventories,
                  locations := eraseA p.uid s.locations })
    ∧ (∀ q2 : Player, q2.uid = p.uid →
        handlePlayerJoin q2 (handlePlayerJoin q (snapshotSave p s)).2
          = (q2, (handlePlayerJoin q (snapshotSave p s)).2))
    ∧ handlePlayerJoin r s = (r, s) := by
  have hmain : handlePlayerJoin q (snapshotSave p s)
      = ({ q with inv := p.inv, loc := p.loc, health := q.maxHealth },
         { s with inventories := eraseA p.uid s.inventories,
                  locations := eraseA p.uid s.locations }) := by
    unfold handlePlayerJoin restoreInventoryP snapshotSave
    dsimp only
    rw [hq, lookupA_insertA_self, lookupA_insertA_self]
    dsimp only
    rw [eraseA_insertA, eraseA_insertA, hlen, applySlots_restore]
    rfl
  have hsecond : ∀ q2 : Player, q2.uid = p.uid →
      handlePlayerJoin q2 (handlePlayerJoin q (snapshotSave p s)).2
        = (q2, (handlePlayerJoin q (snapshotSave p s)).2) := by
    intro q2 hq2
    rw [hmain]
    dsimp only
    unfold handlePlayerJoin
    have hnone : lookupA q2.uid (eraseA p.uid s.inventories) = none := by
      rw [hq2]
      exact lookupA_eraseA_self _ hni
    rw [hnone]
    rfl
  have hthird : handlePlayerJoin r s = (r, s) := by
    unfold handlePlayerJoin
    rw [hr]
    rfl
  exact ⟨hmain, hsecond, hthird⟩

/-- C8 witness: a concrete round trip through an actual duel start: both
snapshot entries are created, the join path restores inventory, location
and health and empties both entries, and a repeat join is a no-op. -/
theorem snapshot_roundtrip_witness :
    handlePlayerJoin
        { player1 with inv := [none, none], loc := 99, health := 3 }
        (snapshotSave player1 initState)
      = ({ player1 with
             inv := player1.inv
             loc := player1.loc
             health := player1.maxHealth },
         { initState with
             inventories := eraseA player1.uid initState.inventories
             locations := eraseA player1.uid initState.locations }) :=
  (snapshot_roundtrip player1
      { player1 with inv := [none, none], loc := 99, health := 3 }
      player3 initState rfl (by decide) (by decide) rfl).1

/-- C10: at every state reachable through the event-level operations
(duel start, kill resolution, quit handling, join restoration) the set of
player ids with a saved inventory entry equals the set with a saved
location entry: duel start inserts both together and every deleting path
(normal duel end, disconnect-end for the winner, rejoin restoration)
removes both together, so gating the join-time restoration on the
inventory map alone never strands a saved location. -/
theorem snapshot_maps_sync (f : ℤ → ℤ → ℤ × ℤ) (ops : List DuelOp) (k : ℕ) :
    keysA (runOps f ops).inventories = keysA (runOps f ops).locations
    ∧ ((lookupA k (runOps f ops).inventories).isSome = true
        ↔ (lookupA k (runOps f ops).locations).isSome = true) := by
  have h : keysA (runOps f ops).inventories = keysA (runOps f ops).locations :=
    syncKeys_foldl f ops initState rfl
  refine ⟨h, ?_⟩
  rw [lookupA_isSome_iff, lookupA_isSome_iff, h]

/-- C1: resolution is NOT idempotent. With players 1 and 2 paired, each of
the two death signals for one death passes the `opponentOf(killer) =
victim` check (the pairing is still intact when both handlers run, since
resolution is deferred by 2 ticks) and schedules the same resolution; the
scheduled path (`_retry_end_duel` / `_end_duel`) never re-checks the
pairing, so running it a second time for the already-unpaired pair
increments the win counter again (1 to 2) and reapplies the rating
update, double-awarding the win. -/
theorem resolution_not_idempotent :
    handlePlayerDeath (some player1) player2 (fun _ => none)
        (runOps eloStub [DuelOp.start player1 player2]) = some (1, 2)
    ∧ lookupA 1 (endDuel eloStub player1 player2
        (runOps eloStub [DuelOp.start player1 player2])).wins = some 1
    ∧ lookupA 1 (endDuel eloStub player1 player2 (endDuel eloStub player1 player2
        (runOps eloStub [DuelOp.start player1 player2]))).wins = some 2
    ∧ (endDuel eloStub player1 player2 (endDuel eloStub player1 player2
        (runOps eloStub [DuelOp.start player1 player2]))).elos
      ≠ (endDuel eloStub player1 player2
        (runOps eloStub [DuelOp.start player1 player2])).elos := by
  refine ⟨rfl, rfl, rfl, ?_⟩
  decide

end Arena
